import Mathlib

/-!
Verification of the session/form-data core of the express-ai-copilot-server
repository (services/session.service.js, services/ai.service.js).

The JavaScript code is shallowly embedded as follows:
* JS `Map` objects and plain key-value objects are association lists
  (`List (κ × α)`); `Map.get`/`obj[k]` is `mapGet` (first matching entry),
  `Map.set`/`obj[k] = v` is `mapSet` (replace in place, else append, which
  is JS insertion-order semantics), `Map.delete`/`delete obj[k]` is
  `mapDelete`.  A JS map never holds two entries with the same key, so
  removing every matching entry coincides with removing the single one.
* JS string operations `toLowerCase`, `startsWith`, `includes` are modelled
  structurally on the character list of the string (`lowerStr`,
  `startsWithStr`, `containsStr`).
* Dynamically typed JS values (only needed for schema validation) are the
  inductive `JSVal`.
* The network round trip to the Gemini API (`chat.sendMessage` plus reading
  `response.text` and `JSON.parse` of that text) is an oracle parameter of
  type `NetResult`: either a rejected promise carrying an error message, or
  a response text together with the outcome of parsing it.
* Thrown JS exceptions are `Except String`; `await` points disappear since
  the embedding passes the awaited outcome explicitly.
-/

set_option autoImplicit false

namespace CopilotServer

/-- Structural model of JS `String.prototype.toLowerCase` (ASCII-faithful). -/
def lowerStr (s : String) : String := ⟨s.data.map Char.toLower⟩

/-- Boolean test that the first character list is an initial segment of the second. -/
def charsStart : List Char → List Char → Bool
  | [], _ => true
  | _ :: _, [] => false
  | a :: as, b :: bs => a == b && charsStart as bs

/-- Boolean test that `sub` occurs contiguously inside the second list. -/
def charsContainsSub (sub : List Char) : List Char → Bool
  | [] => sub.isEmpty
  | c :: rest => charsStart sub (c :: rest) || charsContainsSub sub rest

/-- Structural model of JS `String.prototype.startsWith`. -/
def startsWithStr (s pre : String) : Bool := charsStart pre.data s.data

/-- Structural model of JS `String.prototype.includes`. -/
def containsStr (s sub : String) : Bool := charsContainsSub sub.data s.data

section AssocMap

variable {κ : Type} {α : Type} [DecidableEq κ]

/-- JS `Map.get` / object indexing: first entry with the given key, if any. -/
def mapGet : List (κ × α) → κ → Option α
  | [], _ => none
  | (k2, v) :: rest, k => if k2 = k then some v else mapGet rest k

/-- JS `Map.set` / object assignment: overwrite in place, else append
(JS preserves the insertion position of an existing key). -/
def mapSet : List (κ × α) → κ → α → List (κ × α)
  | [], k, v => [(k, v)]
  | (k2, v2) :: rest, k, v =>
    if k2 = k then (k2, v) :: rest else (k2, v2) :: mapSet rest k v

/-- JS `Map.delete`: remove the entry with the given key.  A JS map holds at
most one entry per key, so removing all matches is the same operation. -/
def mapDelete : List (κ × α) → κ → List (κ × α)
  | [], _ => []
  | (k2, v) :: rest, k =>
    if k2 = k then mapDelete rest k else (k2, v) :: mapDelete rest k

end AssocMap

/-- Dynamically typed JS value, as far as schema validation needs it:
`vNull` stands for both `null` and `undefined` (both falsy and not plain
objects), and numbers are integers since only `typeof` and truthiness of
schema candidates matter. -/
inductive JSVal where
  | vNull
  | vStr (s : String)
  | vNum (n : Int)
  | vBool (b : Bool)
  | vArr (elems : List JSVal)
  | vObj (fields : List (String × JSVal))

/-- Allowed schema type tags, from `AIService.validateSchema`. -/
def validTypes : List String :=
  ["string", "number", "boolean", "date", "email", "phone", "url"]

/-- Embedding of `AIService.validateSchema` (ai.service.js lines 187-205).
The JS checks `!schema || typeof schema !== "object" || Array.isArray(schema)`
reject every value except a plain object (`null` is falsy, arrays are caught
by `Array.isArray`, primitives fail the `typeof` test); then an empty field
list is rejected, and every field value must be a string whose lowercase form
is one of the seven allowed tags. -/
def validateSchema (schema : JSVal) : Bool :=
  match schema with
  | .vObj fields =>
    if fields.isEmpty then false
    else fields.all fun p =>
      match p.2 with
      | .vStr t => validTypes.contains (lowerStr t)
      | _ => false
  | _ => false

/-- Accumulated form data of a session: a plain JS object from field key to
latest string value. -/
abbrev FormData := List (String × String)

/-- One extracted `{key, value}` record from a turn's `form_data` array.
`none` models a missing property; JS truthiness of a string value is
`isSome` together with being non-empty. -/
structure Field where
  key : Option String
  value : Option String
  deriving DecidableEq

/-- One step of the accumulator loop in `SessionService.sendMessage`
(session.service.js lines 54-58): `if (field.key && field.value)
session.accumulatedFormData[field.key] = field.value`. -/
def applyField (acc : FormData) (f : Field) : FormData :=
  match f.key, f.value with
  | some k, some v => if k ≠ "" ∧ v ≠ "" then mapSet acc k v else acc
  | _, _ => acc

/-- The whole `response.form_data.forEach(...)` accumulator loop. -/
def applyFields (acc : FormData) (fs : List Field) : FormData :=
  fs.foldl applyField acc

/-- Shape of the `form_data` property of a structured turn result.
`arr` is the current protocol (array of records), `legacy` a flat key-value
object, and `missing` any falsy `form_data` (absent, `null`, empty string);
a truthy non-object non-array `form_data` behaves exactly like `missing`
in session.service.js (both reach the final `return response`), so `missing`
stands for those too. -/
inductive FDShape where
  | arr (fields : List Field)
  | legacy (kvs : List (String × String))
  | missing
  deriving DecidableEq

/-- Raw turn result as `SessionService.sendMessage` receives it from
`AIService.sendMessage`: either a plain string (JSON text that parsed to a
string) or a structured object. -/
inductive RawResult where
  | str (s : String)
  | obj (ai_message : String) (form_data : FDShape)
  deriving DecidableEq

/-- Value returned by `SessionService.sendMessage` on success: the verbatim
string, the two-field `{ai_message, form_data}` object built from the
accumulated data, or the unrecognized raw object passed through. -/
inductive SendResult where
  | str (s : String)
  | structured (ai_message : String) (form_data : FormData)
  | raw (r : RawResult)
  deriving DecidableEq

/-- Embedding of `Object.assign(session.accumulatedFormData, response.form_data)`
for the legacy flat-object shape: copy every key of the source in order. -/
def objAssign (acc : FormData) (kvs : List (String × String)) : FormData :=
  kvs.foldl (fun a p => mapSet a p.1 p.2) acc

/-- The response-processing tail of `SessionService.sendMessage`
(session.service.js lines 46-85), given the session's current accumulated
form data: returns the turn's visible result and the new accumulated data.
In JS the accumulated object is mutated in place; here the new value is
returned and the caller stores it back. -/
def processResponse (acc : FormData) (r : RawResult) : SendResult × FormData :=
  match r with
  | .str s => (.str s, acc)
  | .obj ai fd =>
    match fd with
    | .arr fields =>
      let acc2 := applyFields acc fields
      (.structured ai acc2, acc2)
    | .legacy kvs =>
      let acc2 := objAssign acc kvs
      (.structured ai acc2, acc2)
    | .missing => (.raw (.obj ai .missing), acc)

/-- Key substrings that trigger URL auto-formatting in `AIService.sendMessage`. -/
def urlKeySubs : List String := ["url", "profile", "link", "website"]

/-- JS condition `fieldLower.includes('url') || ... || fieldLower.includes('website')`
on the lowercased key. -/
def keyTriggersUrlFormat (key : String) : Bool :=
  urlKeySubs.any fun sub => containsStr (lowerStr key) sub

/-- Per-field URL post-processing of `AIService.sendMessage`
(ai.service.js lines 148-158): only fields with truthy key and value are
touched; if the key contains one of the trigger substrings and the value
does not start with `"http"`, the value is prefixed with `"https://"`. -/
def formatField (f : Field) : Field :=
  match f.key, f.value with
  | some k, some v =>
    if k ≠ "" ∧ v ≠ "" then
      if keyTriggersUrlFormat k ∧ ¬ startsWithStr v "http" then
        { key := some k, value := some ("https://" ++ v) }
      else f
    else f
  | _, _ => f

/-- URL post-processing of a parsed turn result: applied only when
`form_data` is a truthy array (`parsedResponse.form_data && Array.isArray(...)`). -/
def formatResponse (r : RawResult) : RawResult :=
  match r with
  | .obj ai (.arr fields) => .obj ai (.arr (fields.map formatField))
  | _ => r

/-- Error rewrapping of the outer `catch` in `AIService.sendMessage`
(ai.service.js lines 169-181): quota and safety errors get dedicated
messages, everything else the generic failure message. -/
def gatewayErrorMessage (m : String) : String :=
  if containsStr m "quota" then "AI service quota exceeded. Please try again later."
  else if containsStr m "safety" then
    "Message flagged by safety filters. Please rephrase your message."
  else "Failed to get AI response. Please try again."

/-- Oracle for the network round trip inside `AIService.sendMessage`:
`fail m` models `await chat.sendMessage(...)` rejecting with an `Error`
whose message is `m`; `ok text parsed` models a fulfilled call whose
`response.text` is `text` (the empty string standing for a falsy text) and
whose `JSON.parse(text)` outcome is `parsed` (`none` when parsing throws). -/
inductive NetResult where
  | fail (message : String)
  | ok (text : String) (parsed : Option RawResult)
  deriving DecidableEq

/-- JS truthiness of an optional string argument. -/
def truthyOpt : Option String → Bool
  | none => false
  | some s => s ≠ ""

namespace AIService

/-- Embedding of `AIService.sendMessage` (ai.service.js lines 128-182).
`chatOk` is the truthiness of the `chat` argument, `message` the message
argument (`none` for a missing one), `net` the network oracle.  The `try`
body throws `"Chat instance and message are required"` when either argument
is falsy, propagates a network rejection, throws `"No response received
from AI"` on a falsy response text, returns the URL-formatted parsed value,
or returns the degraded `{ai_message: responseText, form_data: []}` object
when parsing fails.  The outer `catch` replaces every one of these thrown
messages via `gatewayErrorMessage`. -/
def sendMessage (chatOk : Bool) (message : Option String) (net : NetResult) :
    Except String RawResult :=
  let body : Except String RawResult :=
    if ¬ (chatOk = true ∧ truthyOpt message = true) then
      .error "Chat instance and message are required"
    else
      match net with
      | .fail m => .error m
      | .ok text parsed =>
        if text = "" then .error "No response received from AI"
        else
          match parsed with
          | some r => .ok (formatResponse r)
          | none => .ok (.obj text (.arr []))
  match body with
  | .ok r => .ok r
  | .error m => .error (gatewayErrorMessage m)

end AIService

/-- Session record as stored in `SessionService.sessions`
(session.service.js lines 24-30).  The conversation handle `chat` is opaque
and modelled by a number. -/
structure Session where
  id : String
  schema : JSVal
  chat : Nat
  createdAt : ℚ
  accumulatedFormData : FormData

/-- The in-memory session store: a JS `Map` from session id to record. -/
abbrev Store := List (String × Session)

namespace SessionService

/-- Embedding of `SessionService.createSession` (session.service.js lines
13-33).  The fresh UUID, the gateway conversation handle and the current
time are parameters since they come from outside the function. -/
def createSession (store : Store) (schema : JSVal) (newId : String)
    (chat : Nat) (now : ℚ) : Except String (String × Store) :=
  if ¬ validateSchema schema = true then .error "Invalid schema format"
  else
    .ok (newId, mapSet store newId
      { id := newId, schema := schema, chat := chat, createdAt := now,
        accumulatedFormData := [] })

/-- Embedding of `SessionService.sendMessage` (session.service.js lines
38-86).  The store is threaded explicitly; an unknown id returns the
`"Session not found"` error with the store untouched.  The stored `chat`
handle is an object and hence always truthy, so `AIService.sendMessage`
receives `chatOk := true`.  On a successful turn the session record is
stored back with the accumulated data updated in place. -/
def sendMessage (store : Store) (sessionId : String) (message : Option String)
    (net : NetResult) : Except String SendResult × Store :=
  match mapGet store sessionId with
  | none => (.error "Session not found", store)
  | some session =>
    match AIService.sendMessage true message net with
    | .error e => (.error e, store)
    | .ok raw =>
      let (res, acc2) := processResponse session.accumulatedFormData raw
      (.ok res,
        mapSet store sessionId { session with accumulatedFormData := acc2 })

/-- Embedding of `SessionService.deleteSession`: `Map.delete` returns whether
the key was present. -/
def deleteSession (store : Store) (sessionId : String) : Bool × Store :=
  ((mapGet store sessionId).isSome, mapDelete store sessionId)

/-- Embedding of `SessionService.hasSession`. -/
def hasSession (store : Store) (sessionId : String) : Bool :=
  (mapGet store sessionId).isSome

/-- Embedding of `SessionService.getSessionCount` (`Map.size`). -/
def getSessionCount (store : Store) : Nat := store.length

/-- Embedding of `SessionService.getAllSessionIds` (`Array.from(keys())`). -/
def getAllSessionIds (store : Store) : List String := store.map Prod.fst

/-- The age test of `SessionService.cleanupExpiredSessions`:
`(now - session.createdAt) / (1000 * 60) > maxAgeMinutes`, with timestamps
in milliseconds and exact rational division. -/
def sessionExpired (now maxAgeMinutes : ℚ) (s : Session) : Bool :=
  decide ((now - s.createdAt) / (1000 * 60) > maxAgeMinutes)

/-- Embedding of `SessionService.cleanupExpiredSessions` (session.service.js
lines 134-154): first collect the ids of expired sessions, then delete each,
and return how many were collected. -/
def cleanupExpiredSessions (store : Store) (maxAgeMinutes now : ℚ) :
    Nat × Store :=
  let expiredIds :=
    (store.filter fun p => sessionExpired now maxAgeMinutes p.2).map Prod.fst
  (expiredIds.length, expiredIds.foldl mapDelete store)

end SessionService

/-!
Reference-aware model of `getSessionInfo`.  In JS the summary object built
by `getSessionInfo` shares its `accumulatedFormData` property with the
session record by reference, whereas the results of `sendMessage` are
spread copies.  To reason about this aliasing the accumulated form-data
objects live in an explicit heap of addresses, and a session record holds
the address of its object.
-/

/-- Session record in the reference-aware model: `accRef` is the heap
address of the session's accumulated form-data object. -/
structure RefSession where
  id : String
  createdAt : ℚ
  accRef : Nat
  deriving DecidableEq

/-- Store plus heap of form-data objects. -/
structure RefState where
  heap : List (Nat × FormData)
  sessions : List (String × RefSession)
  deriving DecidableEq

/-- Dereference a heap address (a dangling address reads as empty). -/
def heapRead (h : List (Nat × FormData)) (a : Nat) : FormData :=
  (mapGet h a).getD []

/-- Summary object returned by `SessionService.getSessionInfo`
(session.service.js lines 105-115): its `accumulatedFormData` property is
`session.accumulatedFormData` itself, i.e. the same reference, so the model
carries the address, not a copy. -/
structure SessionInfoRef where
  id : String
  createdAt : ℚ
  accumulatedFormData : Nat
  deriving DecidableEq

/-- Embedding of `SessionService.getSessionInfo` in the reference-aware
model. -/
def getSessionInfo (st : RefState) (sessionId : String) :
    Option SessionInfoRef :=
  (mapGet st.sessions sessionId).map fun s =>
    { id := s.id, createdAt := s.createdAt, accumulatedFormData := s.accRef }

/-- External mutation `summary.accumulatedFormData[k] = v` through a heap
address. -/
def writeField (st : RefState) (a : Nat) (k v : String) : RefState :=
  { st with heap := mapSet st.heap a (mapSet (heapRead st.heap a) k v) }

/-- The session's internal accumulated form data, read through its own
reference. -/
def internalFormData (st : RefState) (sessionId : String) : Option FormData :=
  (mapGet st.sessions sessionId).map fun s => heapRead st.heap s.accRef

/-!
Specification-side definitions and concrete fixtures used by the claim
theorems.
-/

/-- Value assigned to key `k` by the last record of `fs` whose key equals
`k` and whose key and value are both present and non-empty; `none` when no
such record exists.  This is the specification's reading of the sequence
merge ("later entries in the sequence win"), stated independently of the
accumulator loop. -/
def lastValid (fs : List Field) (k : String) : Option String :=
  match fs with
  | [] => none
  | f :: rest =>
    (lastValid rest k).or
      (match f.key, f.value with
       | some k2, some v => if k2 = k ∧ k2 ≠ "" ∧ v ≠ "" then some v else none
       | _, _ => none)

/-- Store consistency: every stored record's `id` field equals the key under
which it is stored. -/
def StoreInv (store : Store) : Prop := ∀ p ∈ store, p.2.id = p.1

/-- Fixture session for the concrete theorems. -/
def sess1 : Session :=
  { id := "s", schema := .vObj [("name", .vStr "string")], chat := 0,
    createdAt := 0, accumulatedFormData := [("a", "1")] }

/-- Fixture store holding exactly `sess1` under its id. -/
def store1 : Store := [("s", sess1)]

/-- Fixture session created 90 minutes (5400000 ms) before time zero. -/
def wOld : Session :=
  { id := "old", schema := .vNull, chat := 0, createdAt := -5400000,
    accumulatedFormData := [] }

/-- Fixture session created 10 minutes (600000 ms) before time zero. -/
def wNew : Session :=
  { id := "new", schema := .vNull, chat := 1, createdAt := -600000,
    accumulatedFormData := [] }

/-- Fixture store for the expiry-sweep example of the specification. -/
def wStore : Store := [("old", wOld), ("new", wNew)]

/-- Fixture session of the reference-aware model, owning heap address 0. -/
def refSess : RefSession := { id := "s", createdAt := 0, accRef := 0 }

/-- Fixture state: one session whose accumulated form data `{a: "1"}` lives
at heap address 0. -/
def refSt : RefState :=
  { heap := [(0, [("a", "1")])], sessions := [("s", refSess)] }

/-!
Helper lemmas about the association-map model.
-/

section MapLemmas

variable {κ α : Type} [DecidableEq κ]

theorem mapGet_mapSet (m : List (κ × α)) (k k2 : κ) (v : α) :
    mapGet (mapSet m k v) k2 = if k = k2 then some v else mapGet m k2 := by
  induction m with
  | nil => simp [mapGet, mapSet]
  | cons hd rest ih =>
    obtain ⟨k3, v3⟩ := hd
    by_cases h3 : k3 = k
    · subst h3
      by_cases h2 : k3 = k2 <;> simp [mapGet, mapSet, h2]
    · by_cases h2 : k3 = k2
      · subst h2
        have : ¬ k = k3 := fun h => h3 h.symm
        simp [mapGet, mapSet, h3, this]
      · simp [mapGet, mapSet, h3, h2, ih]

theorem mapSet_self (m : List (κ × α)) (k : κ) (v : α)
    (h : mapGet m k = some v) : mapSet m k v = m := by
  induction m with
  | nil => simp [mapGet] at h
  | cons hd rest ih =>
    obtain ⟨k2, v2⟩ := hd
    by_cases h2 : k2 = k
    · subst h2
      simp [mapGet] at h
      simp [mapSet, h]
    · simp [mapGet, h2] at h
      simp [mapSet, h2, ih h]

theorem mapGet_mem (m : List (κ × α)) (k : κ) (v : α)
    (h : mapGet m k = some v) : (k, v) ∈ m := by
  induction m with
  | nil => simp [mapGet] at h
  | cons hd rest ih =>
    obtain ⟨k2, v2⟩ := hd
    by_cases h2 : k2 = k
    · subst h2
      simp [mapGet] at h
      simp [h]
    · simp [mapGet, h2] at h
      exact List.mem_cons_of_mem _ (ih h)

theorem mem_mapSet (m : List (κ × α)) (k : κ) (v : α) (p : κ × α)
    (h : p ∈ mapSet m k v) : p ∈ m ∨ p = (k, v) := by
  induction m with
  | nil => simp [mapSet] at h; simp [h]
  | cons hd rest ih =>
    obtain ⟨k2, v2⟩ := hd
    by_cases h2 : k2 = k
    · subst h2
      simp [mapSet] at h
      rcases h with h | h
      · right; simp [h]
      · left; exact List.mem_cons_of_mem _ h
    · simp [mapSet, h2] at h
      rcases h with h | h
      · left; simp [h]
      · rcases ih h with h3 | h3
        · left; exact List.mem_cons_of_mem _ h3
        · right; exact h3

theorem mem_mapDelete (m : List (κ × α)) (k : κ) (p : κ × α) :
    p ∈ mapDelete m k ↔ p ∈ m ∧ p.1 ≠ k := by
  induction m with
  | nil => simp [mapDelete]
  | cons hd rest ih =>
    obtain ⟨k2, v2⟩ := hd
    by_cases h2 : k2 = k
    · subst h2
      have hstep : mapDelete ((k2, v2) :: rest) k2 = mapDelete rest k2 := by
        simp [mapDelete]
      rw [hstep, ih]
      simp only [List.mem_cons]
      constructor
      · rintro ⟨hm, hne⟩
        exact ⟨Or.inr hm, hne⟩
      · rintro ⟨h | h, hne⟩
        · exact absurd (congrArg Prod.fst h) hne
        · exact ⟨h, hne⟩
    · simp only [mapDelete, if_neg h2, List.mem_cons, ih]
      constructor
      · rintro (h | ⟨h, hne⟩)
        · subst h
          exact ⟨Or.inl rfl, h2⟩
        · exact ⟨Or.inr h, hne⟩
      · rintro ⟨h | h, hne⟩
        · exact Or.inl h
        · exact Or.inr ⟨h, hne⟩

theorem mapGet_isSome_iff (m : List (κ × α)) (k : κ) :
    (mapGet m k).isSome = true ↔ k ∈ m.map Prod.fst := by
  induction m with
  | nil => simp [mapGet]
  | cons hd rest ih =>
    obtain ⟨k2, v2⟩ := hd
    by_cases h2 : k2 = k
    · subst h2
      simp [mapGet]
    · have : ¬ k = k2 := fun h => h2 h.symm
      simp [mapGet, h2, ih, this]

theorem mem_foldl_mapDelete (ids : List κ) (m : List (κ × α)) (p : κ × α) :
    p ∈ ids.foldl mapDelete m ↔ p ∈ m ∧ p.1 ∉ ids := by
  induction ids generalizing m with
  | nil => simp
  | cons i ids ih =>
    simp only [List.foldl_cons, ih, mem_mapDelete, List.mem_cons]
    constructor
    · rintro ⟨⟨hm, hne⟩, hni⟩
      exact ⟨hm, fun h => h.elim hne hni⟩
    · rintro ⟨hm, hni⟩
      exact ⟨⟨hm, fun h => hni (Or.inl h)⟩, fun h => hni (Or.inr h)⟩

end MapLemmas

/-- Lookup in the accumulator after the sequence merge: the last valid
record for a key wins, otherwise the previous accumulated value survives. -/
theorem applyFields_lookup (fs : List Field) (acc : FormData) (k : String) :
    mapGet (applyFields acc fs) k = (lastValid fs k).or (mapGet acc k) := by
  induction fs generalizing acc with
  | nil => simp [applyFields, lastValid, Option.or]
  | cons f rest ih =>
    have step : applyFields acc (f :: rest) = applyFields (applyField acc f) rest := rfl
    rw [step, ih]
    cases hrest : lastValid rest k with
    | some v => simp [lastValid, hrest, Option.or]
    | none =>
      simp only [lastValid, hrest, Option.or]
      match hk : f.key, hv : f.value with
      | some k2, some v =>
        simp only [applyField, hk, hv]
        by_cases hval : k2 ≠ "" ∧ v ≠ ""
        · rw [if_pos hval, mapGet_mapSet]
          by_cases heq : k2 = k
          · subst heq
            simp [hval]
          · simp [heq]
        · rw [if_neg hval]
          have : ¬ (k2 = k ∧ k2 ≠ "" ∧ v ≠ "") := by
            rintro ⟨h1, h2, h3⟩
            exact hval ⟨h2, h3⟩
          simp [this, Option.or]
      | some k2, none => simp [applyField, hk, hv, Option.or]
      | none, some v => simp [applyField, hk, hv, Option.or]
      | none, none => simp [applyField, hk, hv, Option.or]

/-!
Claim theorems.
-/

/-- C1: for every accumulated state and every structured turn result whose
`form_data` is a sequence of `{key, value}` records, the accumulator sets
`accumulated[key] = value` for exactly the records whose key and value are
both present and non-empty, later entries for a key overwriting earlier
ones (within the turn via the sequence fold, and across turns via the
previous accumulated value), and returns
`{ai_message: result.ai_message, form_data: the new accumulated mapping}`;
starting from `{a: "1"}` with sequence `[{a, "2"}, {b, "3"}]` the result is
`{a: "2", b: "3"}`. -/
theorem sendMessage_sequence_merge (acc : FormData) (ai : String)
    (fs : List Field) :
    processResponse acc (.obj ai (.arr fs)) =
      (.structured ai (applyFields acc fs), applyFields acc fs)
    ∧ (∀ k, mapGet (applyFields acc fs) k = (lastValid fs k).or (mapGet acc k))
    ∧ applyFields [("a", "1")]
        [{ key := some "a", value := some "2" },
         { key := some "b", value := some "3" }] = [("a", "2"), ("b", "3")] :=
  ⟨rfl, fun k => applyFields_lookup fs acc k, by decide⟩

/-- C2: the schema validator accepts exactly the non-array key-value objects
with at least one field whose every declared type, lowercased, is one of the
seven allowed tags; every other input (empty mapping, array, non-object,
unknown tag) yields `false`, and the function is total so it never raises. -/
theorem validateSchema_iff (s : JSVal) :
    validateSchema s = true ↔
      ∃ l, s = JSVal.vObj l ∧ l ≠ [] ∧ ∀ p ∈ l, ∃ t, p.2 = JSVal.vStr t ∧
        lowerStr t ∈ ["string", "number", "boolean", "date", "email",
          "phone", "url"] := by
  cases s with
  | vObj l =>
    by_cases hl : l = []
    · subst hl
      simp [validateSchema]
    · have hne : l.isEmpty = false := by
        cases l with
        | nil => exact absurd rfl hl
        | cons a as => rfl
      have hval : validateSchema (JSVal.vObj l) =
          l.all fun p =>
            match p.2 with
            | JSVal.vStr t => validTypes.contains (lowerStr t)
            | _ => false := by
        simp [validateSchema, hne]
      rw [hval, List.all_eq_true]
      constructor
      · intro h
        refine ⟨l, rfl, hl, fun p hp => ?_⟩
        have hx := h p hp
        cases hp2 : p.2 with
        | vStr t =>
          rw [hp2] at hx
          rw [show validTypes.contains (lowerStr t) = true ↔
              lowerStr t ∈ validTypes from List.elem_iff] at hx
          exact ⟨t, rfl, hx⟩
        | vNull => rw [hp2] at hx; simp at hx
        | vNum n => rw [hp2] at hx; simp at hx
        | vBool b => rw [hp2] at hx; simp at hx
        | vArr es => rw [hp2] at hx; simp at hx
        | vObj fs => rw [hp2] at hx; simp at hx
      · rintro ⟨l2, hl2, _, h⟩
        cases hl2
        intro p hp
        obtain ⟨t, hpt, hmem⟩ := h p hp
        rw [hpt]
        exact List.elem_iff.mpr hmem
  | vNull => simp [validateSchema]
  | vStr t => simp [validateSchema]
  | vNum n => simp [validateSchema]
  | vBool b => simp [validateSchema]
  | vArr es => simp [validateSchema]

/-- C5: sending a message against an identifier that is not in the store
signals the `"Session not found"` error and leaves the entire store — and
hence every session's accumulated form data — unchanged; the result does not
depend on the network oracle, so no gateway call is observable. -/
theorem sendMessage_unknown_session (store : Store) (sessionId : String)
    (message : Option String) (net : NetResult)
    (h : SessionService.hasSession store sessionId = false) :
    SessionService.sendMessage store sessionId message net =
      (.error "Session not found", store) := by
  have hget : mapGet store sessionId = none := by
    unfold SessionService.hasSession at h
    exact Option.not_isSome_iff_eq_none.mp (by simp [h])
  simp [SessionService.sendMessage, hget]

/-- C5 witness: a never-created identifier against the empty store. -/
theorem sendMessage_unknown_session_witness :
    SessionService.hasSession [] "missing" = false
    ∧ SessionService.sendMessage [] "missing" (some "hi")
        (.ok "t" (some (.str "ok"))) = (.error "Session not found", []) :=
  ⟨rfl, sendMessage_unknown_session [] "missing" (some "hi")
    (.ok "t" (some (.str "ok"))) rfl⟩

/-- C6: the sequence-shaped merge is idempotent: applying the same
sequence-shaped extraction twice in succession yields the same accumulated
mapping (pointwise on every key; the specification declares insertion order
of the mapping irrelevant) as applying it once. -/
theorem applyFields_idempotent (acc : FormData) (ai : String)
    (fs : List Field) (k : String) :
    mapGet (processResponse
        (processResponse acc (.obj ai (.arr fs))).2 (.obj ai (.arr fs))).2 k
      = mapGet (processResponse acc (.obj ai (.arr fs))).2 k := by
  show mapGet (applyFields (applyFields acc fs) fs) k
      = mapGet (applyFields acc fs) k
  rw [applyFields_lookup fs (applyFields acc fs) k, applyFields_lookup fs acc k]
  cases lastValid fs k <;> rfl

/-- C7: when the raw turn result is a plain string, `sendMessage` on an
existing session returns the string verbatim and the store — in particular
the session's accumulated form data and all its other fields — is unchanged. -/
theorem sendMessage_string_passthrough (store : Store) (sessionId : String)
    (session : Session) (message : Option String) (net : NetResult)
    (s : String)
    (hs : mapGet store sessionId = some session)
    (hr : AIService.sendMessage true message net = .ok (.str s)) :
    SessionService.sendMessage store sessionId message net =
      (.ok (.str s), store) := by
  simp only [SessionService.sendMessage, hs, hr, processResponse]
  rw [mapSet_self store sessionId session hs]

/-- C7 witness: a concrete session receiving a string turn result. -/
theorem sendMessage_string_passthrough_witness :
    mapGet store1 "s" = some sess1
    ∧ AIService.sendMessage true (some "m")
        (.ok "\"hi\"" (some (.str "hi"))) = .ok (.str "hi")
    ∧ SessionService.sendMessage store1 "s" (some "m")
        (.ok "\"hi\"" (some (.str "hi"))) = (.ok (.str "hi"), store1) :=
  ⟨rfl, rfl, sendMessage_string_passthrough store1 "s" sess1 (some "m")
    (.ok "\"hi\"" (some (.str "hi"))) "hi" rfl rfl⟩

/-- C3 counterexample: `getSessionInfo` hands out the very heap reference the
session stores internally (`accumulatedFormData` address 0), so writing
through the returned summary changes the session's internal accumulated form
data — the claim that the summary is a snapshot copy whose mutation leaves
the internal state unchanged fails on this concrete state. -/
theorem getSessionInfo_live_reference_cex :
    getSessionInfo refSt "s" =
      some { id := "s", createdAt := 0, accumulatedFormData := 0 }
    ∧ internalFormData refSt "s" = some [("a", "1")]
    ∧ internalFormData (writeField refSt 0 "a" "2") "s" = some [("a", "2")]
    ∧ internalFormData (writeField refSt 0 "a" "2") "s" ≠
        internalFormData refSt "s" :=
  ⟨rfl, rfl, rfl, by decide⟩

/-- C3 amended: for every existing session, `getSessionInfo` returns the
session's accumulated form data as a live reference — the summary carries
exactly the internal heap address — so mutating the returned mapping mutates
the session's internal accumulated form data correspondingly. -/
theorem getSessionInfo_live_reference (st : RefState) (sessionId : String)
    (info : SessionInfoRef) (h : getSessionInfo st sessionId = some info) :
    (mapGet st.sessions sessionId).map RefSession.accRef =
      some info.accumulatedFormData
    ∧ ∀ k v, internalFormData (writeField st info.accumulatedFormData k v)
          sessionId =
        (internalFormData st sessionId).map fun fd => mapSet fd k v := by
  unfold getSessionInfo at h
  cases hget : mapGet st.sessions sessionId with
  | none => rw [hget] at h; simp at h
  | some s =>
    rw [hget] at h
    simp only [Option.map_some'] at h
    have h2 : (⟨s.id, s.createdAt, s.accRef⟩ : SessionInfoRef) = info :=
      Option.some.inj h
    have haddr : s.accRef = info.accumulatedFormData := by rw [← h2]
    constructor
    · simp [haddr]
    · intro k v
      unfold internalFormData
      have hsess : (writeField st info.accumulatedFormData k v).sessions =
          st.sessions := rfl
      have hheap : (writeField st info.accumulatedFormData k v).heap =
          mapSet st.heap info.accumulatedFormData
            (mapSet (heapRead st.heap info.accumulatedFormData) k v) := rfl
      rw [hsess, hget, hheap, Option.map_some', Option.map_some',
        Option.map_some']
      rw [← haddr]
      unfold heapRead
      rw [mapGet_mapSet]
      simp

/-- C3 witness for the amended theorem, at the fixture state. -/
theorem getSessionInfo_live_reference_witness :
    getSessionInfo refSt "s" =
      some { id := "s", createdAt := 0, accumulatedFormData := 0 }
    ∧ internalFormData (writeField refSt 0 "x" "9") "s" =
        (internalFormData refSt "s").map fun fd => mapSet fd "x" "9" :=
  ⟨rfl, (getSessionInfo_live_reference refSt "s"
    { id := "s", createdAt := 0, accumulatedFormData := 0 } rfl).2 "x" "9"⟩

/-- C4: on a store with pairwise distinct keys (a JS `Map` guarantees this),
the expiry sweep returns the number of sessions whose age
`(now - createdAt) / (1000 * 60)` strictly exceeds the threshold, and the
resulting store holds exactly the untouched records of the non-expired
sessions; the test reads only the creation timestamp (a session record
stores no activity time at all). -/
theorem cleanupExpiredSessions_spec (store : Store) (maxAgeMinutes now : ℚ)
    (h : (store.map Prod.fst).Nodup) :
    (SessionService.cleanupExpiredSessions store maxAgeMinutes now).1 =
      (store.filter fun p =>
        SessionService.sessionExpired now maxAgeMinutes p.2).length
    ∧ ∀ p, p ∈ (SessionService.cleanupExpiredSessions store maxAgeMinutes now).2
        ↔ p ∈ store ∧
          SessionService.sessionExpired now maxAgeMinutes p.2 = false := by
  constructor
  · simp [SessionService.cleanupExpiredSessions]
  · intro p
    unfold SessionService.cleanupExpiredSessions
    simp only []
    rw [mem_foldl_mapDelete]
    constructor
    · rintro ⟨hp, hni⟩
      refine ⟨hp, ?_⟩
      cases hexp : SessionService.sessionExpired now maxAgeMinutes p.2 with
      | false => rfl
      | true =>
        exact absurd (List.mem_map_of_mem Prod.fst
          (List.mem_filter.mpr ⟨hp, hexp⟩)) hni
    · rintro ⟨hp, hexp⟩
      refine ⟨hp, fun hni => ?_⟩
      obtain ⟨q, hq, hq1⟩ := List.mem_map.mp hni
      obtain ⟨hqs, hqexp⟩ := List.mem_filter.mp hq
      have : q = p := List.inj_on_of_nodup_map h hqs hp hq1
      rw [this] at hqexp
      rw [hqexp] at hexp
      exact Bool.true_eq_false.mp hexp

/-- C4 witness: the specification's example — sessions created 90 and 10
minutes before now with a 60-minute threshold; exactly the old one is
deleted, the new one's record survives untouched, and the count is 1. -/
theorem cleanupExpiredSessions_spec_witness :
    (wStore.map Prod.fst).Nodup
    ∧ (SessionService.cleanupExpiredSessions wStore 60 0).1 = 1
    ∧ (SessionService.cleanupExpiredSessions wStore 60 0).2 = [("new", wNew)] := by
  have hOld : SessionService.sessionExpired 0 60 wOld = true := by
    simp only [SessionService.sessionExpired, wOld, decide_eq_true_eq]
    norm_num
  have hNew : SessionService.sessionExpired 0 60 wNew = false := by
    simp only [SessionService.sessionExpired, wNew, decide_eq_false_iff_not]
    norm_num
  have hflt : (wStore.filter fun p =>
      SessionService.sessionExpired 0 60 p.2) = [("old", wOld)] := by
    simp [wStore, List.filter, hOld, hNew]
  refine ⟨by decide, ?_, ?_⟩
  · rw [(cleanupExpiredSessions_spec wStore 60 0 (by decide)).1, hflt]
    rfl
  · show ((wStore.filter fun p =>
        SessionService.sessionExpired 0 60 p.2).map Prod.fst).foldl
        mapDelete wStore = [("new", wNew)]
    rw [hflt]
    simp [mapDelete, wStore]

/-- C8 counterexample: a field keyed `profileUrl` (which contains the
trigger substring `url`) whose value is the empty string does not start
with any scheme prefix, yet the gateway post-processing leaves it unchanged
instead of rewriting it to `"https://"` — the claim's universal rewrite
rule fails for fields whose value is empty (the code guards on
`field.key && field.value` first). -/
theorem formatField_empty_value_cex :
    keyTriggersUrlFormat "profileUrl" = true
    ∧ startsWithStr "" "http" = false
    ∧ formatField { key := some "profileUrl", value := some "" } =
        { key := some "profileUrl", value := some "" }
    ∧ (formatField { key := some "profileUrl", value := some "" }).value ≠
        some ("https://" ++ "") :=
  ⟨by decide, rfl, rfl, by decide⟩

/-- C8 amended: the gateway post-processing maps `formatField` over every
record of an array-shaped `form_data`; a record whose key and value are both
present and non-empty and whose key contains one of the trigger substrings
(case-insensitively) gets `"https://"` prepended exactly when its value does
not already start with `"http"`; a record whose key contains none of the
substrings is never modified. -/
theorem formatField_url_spec (ai : String) (fs : List Field) (f : Field)
    (k v : String) (hk : f.key = some k) (hv : f.value = some v) :
    formatResponse (.obj ai (.arr fs)) = .obj ai (.arr (fs.map formatField))
    ∧ (k ≠ "" → v ≠ "" → keyTriggersUrlFormat k = true →
        formatField f =
          ⟨some k, some (if startsWithStr v "http" = true then v
            else "https://" ++ v)⟩)
    ∧ (keyTriggersUrlFormat k = false → formatField f = f) := by
  obtain ⟨fk, fv⟩ := f
  cases hk
  cases hv
  refine ⟨rfl, ?_, ?_⟩
  · intro hk0 hv0 htrig
    by_cases hpre : startsWithStr v "http" = true
    · have : ¬ (keyTriggersUrlFormat k = true ∧ ¬ startsWithStr v "http" = true) := by
        rintro ⟨_, hn⟩
        exact hn hpre
      simp [formatField, hk0, hv0, this, hpre]
    · simp [formatField, hk0, hv0, htrig, hpre]
  · intro htrig
    unfold formatField
    simp only [htrig]
    have : ¬ (keyTriggersUrlFormat k = true ∧ ¬ startsWithStr v "http" = true) := by
      rintro ⟨ht, _⟩
      rw [htrig] at ht
      exact Bool.false_ne_true ht
    simp [this]

/-- C8 witness for the amended theorem: the specification's two examples —
`profileUrl: linkedin.com/x` becomes `https://linkedin.com/x`, and a value
already starting with `https://` is left unchanged. -/
theorem formatField_url_spec_witness :
    formatField { key := some "profileUrl", value := some "linkedin.com/x" } =
      { key := some "profileUrl", value := some "https://linkedin.com/x" }
    ∧ formatField { key := some "website", value := some "https://already.com" } =
      { key := some "website", value := some "https://already.com" } := by
  constructor
  · have h := (formatField_url_spec "" []
      { key := some "profileUrl", value := some "linkedin.com/x" }
      "profileUrl" "linkedin.com/x" rfl rfl).2.1
      (by decide) (by decide) (by decide)
    rw [h]
    decide
  · have h := (formatField_url_spec "" []
      { key := some "website", value := some "https://already.com" }
      "website" "https://already.com" rfl rfl).2.1
      (by decide) (by decide) (by decide)
    rw [h]
    decide

/-- C9 counterexample: on an existing session, an empty-string message makes
`sendMessage` signal the generic gateway-failure error, not the internal
`"Chat instance and message are required"` guard text — the guard's throw is
caught by the gateway's own `catch` and replaced before it can reach the
session layer. -/
theorem sendMessage_empty_message_cex :
    SessionService.sendMessage store1 "s" (some "")
        (.ok "t" (some (.str "hi"))) =
      (.error "Failed to get AI response. Please try again.", store1)
    ∧ "Failed to get AI response. Please try again." ≠
        "Chat instance and message are required" :=
  ⟨rfl, by decide⟩

/-- C9 amended: for every existing session, calling `sendMessage` with an
empty-string or missing message signals the generic error
`"Failed to get AI response. Please try again."` (the internal guard
`"Chat instance and message are required"` is thrown before any gateway turn
is attempted but rewrapped by the gateway's catch); the store — hence the
session's accumulated form data — is unchanged, and the result is
independent of the network oracle, so the empty message is never forwarded. -/
theorem sendMessage_empty_message_error (store : Store) (sessionId : String)
    (session : Session) (message : Option String) (net : NetResult)
    (hs : mapGet store sessionId = some session)
    (hm : truthyOpt message = false) :
    SessionService.sendMessage store sessionId message net =
      (.error "Failed to get AI response. Please try again.", store) := by
  have hbody : AIService.sendMessage true message net =
      .error (gatewayErrorMessage "Chat instance and message are required") := by
    unfold AIService.sendMessage
    have : ¬ ((true : Bool) = true ∧ truthyOpt message = true) := by
      rintro ⟨_, ht⟩
      rw [hm] at ht
      exact Bool.false_ne_true ht
    simp [this, hm]
  have hmsg : gatewayErrorMessage "Chat instance and message are required" =
      "Failed to get AI response. Please try again." := by decide
  rw [hmsg] at hbody
  simp [SessionService.sendMessage, hs, hbody]

/-- C9 witness for the amended theorem: concrete session, missing message. -/
theorem sendMessage_empty_message_error_witness :
    mapGet store1 "s" = some sess1
    ∧ truthyOpt none = false
    ∧ SessionService.sendMessage store1 "s" none (.ok "t" (some (.str "hi"))) =
        (.error "Failed to get AI response. Please try again.", store1) :=
  ⟨rfl, rfl, sendMessage_empty_message_error store1 "s" sess1 none
    (.ok "t" (some (.str "hi"))) rfl rfl⟩

/-- C10: for every store satisfying the consistency invariant (each record's
`id` equals its key), the invariant is preserved by `createSession`,
`sendMessage`, `deleteSession` and the expiry sweep; moreover the session
count always equals the length of the enumerated identifier list, and
`hasSession` holds exactly for the identifiers in that list. -/
theorem store_invariants (store : Store) (h : StoreInv store) :
    (∀ schema newId chat now sid st2,
        SessionService.createSession store schema newId chat now =
          .ok (sid, st2) → StoreInv st2)
    ∧ (∀ sessionId message net,
        StoreInv (SessionService.sendMessage store sessionId message net).2)
    ∧ (∀ sessionId, StoreInv (SessionService.deleteSession store sessionId).2)
    ∧ (∀ maxAgeMinutes now,
        StoreInv (SessionService.cleanupExpiredSessions store maxAgeMinutes now).2)
    ∧ SessionService.getSessionCount store =
        (SessionService.getAllSessionIds store).length
    ∧ (∀ sessionId, SessionService.hasSession store sessionId = true ↔
        sessionId ∈ SessionService.getAllSessionIds store) := by
  refine ⟨?_, ?_, ?_, ?_, ?_, ?_⟩
  · intro schema newId chat now sid st2 hcreate
    unfold SessionService.createSession at hcreate
    by_cases hv : validateSchema schema = true
    · simp only [hv, not_true_eq_false, if_neg, not_false_eq_true,
        Except.ok.injEq, Prod.mk.injEq, if_false] at hcreate
      obtain ⟨_, hst⟩ := hcreate
      intro p hp
      rw [← hst] at hp
      rcases mem_mapSet store newId _ p hp with hmem | heq
      · exact h p hmem
      · rw [heq]
    · simp [hv] at hcreate
  · intro sessionId message net
    unfold SessionService.sendMessage
    cases hget : mapGet store sessionId with
    | none => exact h
    | some session =>
      cases hai : AIService.sendMessage true message net with
      | error e => exact h
      | ok raw =>
        simp only []
        intro p hp
        rcases mem_mapSet store sessionId _ p hp with hmem | heq
        · exact h p hmem
        · rw [heq]
          exact h (sessionId, session) (mapGet_mem store sessionId session hget)
  · intro sessionId p hp
    exact h p ((mem_mapDelete store sessionId p).mp hp).1
  · intro maxAgeMinutes now p hp
    unfold SessionService.cleanupExpiredSessions at hp
    exact h p ((mem_foldl_mapDelete _ store p).mp hp).1
  · simp [SessionService.getSessionCount, SessionService.getAllSessionIds]
  · intro sessionId
    exact mapGet_isSome_iff store sessionId

/-- C10 witness: the invariant holds for the fixture store and is preserved
by deleting from it. -/
theorem store_invariants_witness :
    StoreInv store1 ∧ StoreInv (SessionService.deleteSession store1 "s").2 :=
  ⟨by unfold StoreInv; decide,
    (store_invariants store1 (by unfold StoreInv; decide)).2.2.1 "s"⟩

end CopilotServer
